import Mathlib

/-!
Verification of the interpreter-pattern expression engine
(`ValNode`/`AddNode`/`MinNode`/`Parser` from the interpreter example).

The Go source is embedded shallowly:
* `Node` is the closed set of runtime node shapes.  A Go interface value
  may be `nil` (the parser's `prev` field starts out `nil`), so the type
  has an explicit `nilNode` constructor; calling `Interpret` on a `nil`
  interface value panics, which is modelled as `Option.none`.  The
  `+`/`-` of `Interpret` are Go `int` operations and therefore wrap at
  64 bits, modelled by `wrap64`.
* `strconv.Atoi` is modelled by `atoiValue` (the integer returned, with
  the error discarded exactly as the source's `v, _ := strconv.Atoi(...)`
  does: syntax errors yield 0, range errors yield the clamped 64-bit
  bound) and `atoi?` (`some` exactly when `Atoi` returns a nil error).
* `strings.Split(exp, " ")` is modelled by `tokenize` (splitting around
  every single space character; the empty string yields `[""]`).
* The unbounded `for` loop of `Parser.Parse` becomes the well-founded
  recursion `Parser.parseLoop`, decreasing in the number of tokens left.
  An out-of-range slice index (a Go panic) is modelled as `Option.none`.
-/

/-- `strings.Split(s, " ")` on the character list: split around every
single space character.  The empty input yields one empty segment, and
`k` consecutive spaces yield `k - 1` empty segments between the
neighbouring ones. -/
def splitSpace : List Char → List (List Char)
  | [] => [[]]
  | c :: rest =>
    if c = ' ' then [] :: splitSpace rest
    else
      match splitSpace rest with
      | [] => [[c]]
      | t :: ts => (c :: t) :: ts

/-- The tokenizer of `Parser.Parse`: `strings.Split(exp, " ")`. -/
def tokenize (s : String) : List String :=
  (splitSpace s.data).map fun cs => String.mk cs

/-- Base-10 digit run, as accepted by `strconv.ParseInt(s, 10, 64)`:
at least one character, all digits. -/
def digitsToNat (cs : List Char) : Option Nat :=
  if cs = [] then none
  else if cs.all (fun c => c.isDigit) then
    some (cs.foldl (fun a c => a * 10 + (c.toNat - 48)) 0)
  else none

/-- Optionally signed base-10 integer syntax (`strconv.ParseInt` base 10,
before the bit-size range check). -/
def parseSigned (cs : List Char) : Option Int :=
  match cs with
  | '+' :: rest => (digitsToNat rest).map fun n => (n : Int)
  | '-' :: rest => (digitsToNat rest).map fun n => -(n : Int)
  | _ => (digitsToNat cs).map fun n => (n : Int)

def int64Max : Int := 9223372036854775807

def int64Min : Int := -9223372036854775808

/-- `strconv.Atoi` succeeding (nil error): valid signed base-10 syntax
and the value fits in a 64-bit `int`. -/
def atoi? (s : String) : Option Int :=
  match parseSigned s.data with
  | none => none
  | some v => if int64Min ≤ v ∧ v ≤ int64Max then some v else none

/-- The first return value of `strconv.Atoi` with the error discarded,
as in the source's `v, _ := strconv.Atoi(p.exp[p.index])`: 0 on a syntax
error, the clamped bound on a range error, the value otherwise. -/
def atoiValue (s : String) : Int :=
  match parseSigned s.data with
  | none => 0
  | some v => if v > int64Max then int64Max else if v < int64Min then int64Min else v

/-- Two's-complement wrap into the signed 64-bit range
`[-2^63, 2^63)`: the semantics of Go's `int` addition and subtraction
(Go defines signed overflow as wrapping, and `int` is 64 bits wide on
the platforms the code targets). -/
def wrap64 (v : Int) : Int :=
  (v + 9223372036854775808) % 18446744073709551616 - 9223372036854775808

/-- The runtime shapes of the source's `Node` interface: the terminal
`ValNode`, the binary `AddNode`/`MinNode`, and the `nil` interface value
(the zero value of `Parser.prev`). -/
inductive Node where
  | nilNode : Node
  | ValNode : Int → Node
  | AddNode : Node → Node → Node
  | MinNode : Node → Node → Node
deriving DecidableEq, Repr

/-- `Interpret`: `ValNode` returns its value, `AddNode`/`MinNode`
recursively interpret both children and combine with Go's wrapping
64-bit `int` addition/subtraction (`wrap64`).  Calling a method on a
`nil` interface value panics in Go, modelled as `none`. -/
def Node.Interpret : Node → Option Int
  | .nilNode => none
  | .ValNode v => some v
  | .AddNode l r =>
    match l.Interpret, r.Interpret with
    | some a, some b => some (wrap64 (a + b))
    | _, _ => none
  | .MinNode l r =>
    match l.Interpret, r.Interpret with
    | some a, some b => some (wrap64 (a - b))
    | _, _ => none

/-- The source's `Parser` struct: token slice, cursor, and the most
recently built subtree. -/
structure Parser where
  exp : List String
  index : Nat
  prev : Node
deriving DecidableEq, Repr

/-- `newValNode`: reads `p.exp[p.index]` (panicking — `none` — when the
index is out of range), converts it with `Atoi` discarding the error,
advances the cursor, and returns a fresh `ValNode`. -/
def Parser.newValNode (p : Parser) : Option (Node × Parser) :=
  match p.exp[p.index]? with
  | none => none
  | some s => some (Node.ValNode (atoiValue s), { p with index := p.index + 1 })

/-- `newAddNode`: advances past the operator, then builds an `AddNode`
whose left child is the previous subtree and whose right child is a
fresh `ValNode` from the next token. -/
def Parser.newAddNode (p : Parser) : Option (Node × Parser) :=
  match Parser.newValNode { p with index := p.index + 1 } with
  | none => none
  | some rp => some (Node.AddNode p.prev rp.1, rp.2)

/-- `newMinNode`: as `newAddNode`, building a `MinNode`. -/
def Parser.newMinNode (p : Parser) : Option (Node × Parser) :=
  match Parser.newValNode { p with index := p.index + 1 } with
  | none => none
  | some rp => some (Node.MinNode p.prev rp.1, rp.2)

/-- The body of `Parser.Parse`'s `for` loop: while the cursor is in
range, dispatch on the current token (`"+"`, `"-"`, default) and store
the freshly built node in `prev`.  A Go panic inside an iteration
(out-of-range slice index) is modelled as `none`. -/
def Parser.parseLoop (p : Parser) : Option Parser :=
  match hg : p.exp[p.index]? with
  | none => some p
  | some tok =>
    if tok = "+" then
      match ha : p.newAddNode with
      | none => none
      | some np => Parser.parseLoop { np.2 with prev := np.1 }
    else if tok = "-" then
      match hm : p.newMinNode with
      | none => none
      | some np => Parser.parseLoop { np.2 with prev := np.1 }
    else
      match hv : p.newValNode with
      | none => none
      | some np => Parser.parseLoop { np.2 with prev := np.1 }
termination_by p.exp.length - p.index
decreasing_by
  · have hlt : p.index < p.exp.length := by
      by_contra hc
      rw [List.getElem?_eq_none (by omega)] at hg
      exact absurd hg (by simp)
    unfold Parser.newAddNode at ha
    cases hy : Parser.newValNode { p with index := p.index + 1 } with
    | none => rw [hy] at ha; exact absurd ha (by simp)
    | some rp =>
      rw [hy] at ha
      cases ha
      unfold Parser.newValNode at hy
      dsimp only at hy
      cases hz : p.exp[p.index + 1]? with
      | none => rw [hz] at hy; exact absurd hy (by simp)
      | some v =>
        rw [hz] at hy
        cases hy
        dsimp only
        omega
  · have hlt : p.index < p.exp.length := by
      by_contra hc
      rw [List.getElem?_eq_none (by omega)] at hg
      exact absurd hg (by simp)
    unfold Parser.newMinNode at hm
    cases hy : Parser.newValNode { p with index := p.index + 1 } with
    | none => rw [hy] at hm; exact absurd hm (by simp)
    | some rp =>
      rw [hy] at hm
      cases hm
      unfold Parser.newValNode at hy
      dsimp only at hy
      cases hz : p.exp[p.index + 1]? with
      | none => rw [hz] at hy; exact absurd hy (by simp)
      | some v =>
        rw [hz] at hy
        cases hy
        dsimp only
        omega
  · have hlt : p.index < p.exp.length := by
      by_contra hc
      rw [List.getElem?_eq_none (by omega)] at hg
      exact absurd hg (by simp)
    unfold Parser.newValNode at hv
    cases hz : p.exp[p.index]? with
    | none => rw [hz] at hv; exact absurd hv (by simp)
    | some v =>
      rw [hz] at hv
      cases hv
      dsimp only
      omega

/-- Fuel-indexed twin of `Parser.parseLoop`, counting loop iterations:
the outer `none` means the fuel ran out before the loop finished, while
`some none` models a panic inside an iteration.  It is structurally
recursive, so concrete runs evaluate; `parseLoopFuel_complete` shows
one unit of fuel per remaining token always suffices. -/
def Parser.parseLoopFuel (fuel : Nat) (p : Parser) : Option (Option Parser) :=
  match p.exp[p.index]? with
  | none => some (some p)
  | some tok =>
    match fuel with
    | 0 => none
    | fuel' + 1 =>
      if tok = "+" then
        match p.newAddNode with
        | none => some none
        | some np => Parser.parseLoopFuel fuel' { np.2 with prev := np.1 }
      else if tok = "-" then
        match p.newMinNode with
        | none => some none
        | some np => Parser.parseLoopFuel fuel' { np.2 with prev := np.1 }
      else
        match p.newValNode with
        | none => some none
        | some np => Parser.parseLoopFuel fuel' { np.2 with prev := np.1 }

/-- `Parse`: split the input around single spaces and run the loop. -/
def Parser.Parse (p : Parser) (s : String) : Option Parser :=
  Parser.parseLoop { p with exp := tokenize s }

/-- The zero value `&Parser{}`: nil slice, cursor 0, nil `prev`. -/
def newParser : Parser :=
  { exp := [], index := 0, prev := Node.nilNode }

/-- The client pipeline: parse the expression with a fresh parser, then
interpret the root (the final `prev`).  `none` models a panic in either
phase. -/
def interpretExpr (s : String) : Option Int :=
  match newParser.Parse s with
  | none => none
  | some p => p.prev.Interpret

/-- Modelled from the spec: the two operator kinds of the grammar
`VALUE (OP VALUE)*`. -/
inductive Op where
  | plus : Op
  | minus : Op
deriving DecidableEq, Repr

/-- The token symbol of an operator. -/
def Op.symbol : Op → String
  | .plus => "+"
  | .minus => "-"

/-- Modelled from the spec: the operator's pure binary integer
function. -/
def Op.apply : Op → Int → Int → Int
  | .plus, a, b => a + b
  | .minus, a, b => a - b

/-- Modelled from the spec: the strict left-to-right fold
`(...((v1 op1 v2) op2 v3) ... opN v(N+1))` over unbounded integers, as
the spec's "pure binary integer function" reads. -/
def specLeftFold (v0 : Int) (rest : List (Op × Int)) : Int :=
  rest.foldl (fun a p => p.1.apply a p.2) v0

/-- The operator's binary function as the Go code computes it: over
64-bit wrapping `int` arithmetic. -/
def Op.applyWrap : Op → Int → Int → Int
  | .plus, a, b => wrap64 (a + b)
  | .minus, a, b => wrap64 (a - b)

/-- The strict left-to-right fold computed in Go's wrapping 64-bit
`int` arithmetic: each intermediate result wraps. -/
def specLeftFoldWrap (v0 : Int) (rest : List (Op × Int)) : Int :=
  rest.foldl (fun a p => p.1.applyWrap a p.2) v0

/-- The flattened `op value op value ...` tail of a chain. -/
def flatRest : List (Op × String) → List String
  | [] => []
  | p :: rest => p.1.symbol :: p.2 :: flatRest rest

/-- The token sequence `v1 op1 v2 ... opN v(N+1)` of a chain. -/
def chainTokens (t0 : String) (rest : List (Op × String)) : List String :=
  t0 :: flatRest rest

/-- The tree the builder constructs when it folds the chain tail
`rest` into the subtree `acc`, left to right. -/
def chainNode (acc : Node) : List (Op × String) → Node
  | [] => acc
  | p :: rest =>
    match p.1 with
    | .plus => chainNode (Node.AddNode acc (Node.ValNode (atoiValue p.2))) rest
    | .minus => chainNode (Node.MinNode acc (Node.ValNode (atoiValue p.2))) rest

/-- Number of binary-operator (`AddNode`/`MinNode`) nodes in a tree. -/
def Node.countBin : Node → Nat
  | .nilNode => 0
  | .ValNode _ => 0
  | .AddNode l r => l.countBin + r.countBin + 1
  | .MinNode l r => l.countBin + r.countBin + 1

/-- Number of `ValNode` leaves in a tree. -/
def Node.countVal : Node → Nat
  | .nilNode => 0
  | .ValNode _ => 1
  | .AddNode l r => l.countVal + r.countVal
  | .MinNode l r => l.countVal + r.countVal

def Node.isVal : Node → Bool
  | .ValNode _ => true
  | _ => false

/-- The chain shape: every binary-operator node has a `ValNode` right
child and a left child that is itself a value node or a chain-shaped
binary-operator node (never the nil interface value). -/
def Node.chainShaped : Node → Bool
  | .nilNode => false
  | .ValNode _ => true
  | .AddNode l r => l.chainShaped && r.isVal
  | .MinNode l r => l.chainShaped && r.isVal

/-- Trees free of the nil interface value. -/
def Node.noNil : Node → Bool
  | .nilNode => false
  | .ValNode _ => true
  | .AddNode l r => l.noNil && r.noNil
  | .MinNode l r => l.noNil && r.noNil

theorem atoiValue_of_atoi? {s : String} {v : Int} (h : atoi? s = some v) :
    atoiValue s = v := by
  unfold atoi? at h
  unfold atoiValue
  cases hp : parseSigned s.data with
  | none => rw [hp] at h; exact absurd h (by simp)
  | some w =>
    rw [hp] at h
    have h' : (if int64Min ≤ w ∧ w ≤ int64Max then some w else (none : Option Int))
        = some v := h
    show (if w > int64Max then int64Max else if w < int64Min then int64Min else w) = v
    by_cases hr : int64Min ≤ w ∧ w ≤ int64Max
    · rw [if_pos hr] at h'
      cases h'
      rw [if_neg (not_lt.mpr hr.2), if_neg (not_lt.mpr hr.1)]
    · rw [if_neg hr] at h'
      exact absurd h' (by simp)

theorem newValNode_some {p : Parser} {np : Node × Parser}
    (h : p.newValNode = some np) :
    np.2.exp = p.exp ∧ np.2.index = p.index + 1 ∧ np.2.prev = p.prev := by
  unfold Parser.newValNode at h
  cases hg : p.exp[p.index]? with
  | none => rw [hg] at h; exact absurd h (by simp)
  | some s => rw [hg] at h; cases h; exact ⟨rfl, rfl, rfl⟩

theorem newAddNode_some {p : Parser} {np : Node × Parser}
    (h : p.newAddNode = some np) :
    np.2.exp = p.exp ∧ np.2.index = p.index + 2 ∧ np.2.prev = p.prev := by
  unfold Parser.newAddNode at h
  cases hg : Parser.newValNode { p with index := p.index + 1 } with
  | none => rw [hg] at h; exact absurd h (by simp)
  | some rp =>
    rw [hg] at h
    cases h
    have := newValNode_some hg
    simpa using this

theorem newMinNode_some {p : Parser} {np : Node × Parser}
    (h : p.newMinNode = some np) :
    np.2.exp = p.exp ∧ np.2.index = p.index + 2 ∧ np.2.prev = p.prev := by
  unfold Parser.newMinNode at h
  cases hg : Parser.newValNode { p with index := p.index + 1 } with
  | none => rw [hg] at h; exact absurd h (by simp)
  | some rp =>
    rw [hg] at h
    cases h
    have := newValNode_some hg
    simpa using this

theorem index_lt_of_getElem?_some {p : Parser} {t : String}
    (h : p.exp[p.index]? = some t) : p.index < p.exp.length := by
  by_contra hc
  rw [List.getElem?_eq_none (by omega)] at h
  exact absurd h (by simp)

theorem parseLoopFuel_complete (fuel : Nat) :
    ∀ p : Parser, p.exp.length - p.index ≤ fuel →
      Parser.parseLoopFuel fuel p = some p.parseLoop := by
  induction fuel with
  | zero =>
    intro p hp
    rw [Parser.parseLoopFuel, Parser.parseLoop]
    cases hg : p.exp[p.index]? with
    | none => simp
    | some tok =>
      exact absurd (index_lt_of_getElem?_some hg) (by omega)
  | succ fuel ih =>
    intro p hp
    rw [Parser.parseLoopFuel, Parser.parseLoop]
    cases hg : p.exp[p.index]? with
    | none => simp
    | some tok =>
      have hlt := index_lt_of_getElem?_some hg
      simp only []
      by_cases h1 : tok = "+"
      · simp only [if_pos h1]
        cases ha : p.newAddNode with
        | none => simp
        | some np =>
          obtain ⟨he, hi, -⟩ := newAddNode_some ha
          exact ih _ (by rw [he, hi]; omega)
      · by_cases h2 : tok = "-"
        · simp only [if_neg h1, if_pos h2]
          cases hm : p.newMinNode with
          | none => simp
          | some np =>
            obtain ⟨he, hi, -⟩ := newMinNode_some hm
            exact ih _ (by rw [he, hi]; omega)
        · simp only [if_neg h1, if_neg h2]
          cases hv : p.newValNode with
          | none => simp
          | some np =>
            obtain ⟨he, hi, -⟩ := newValNode_some hv
            exact ih _ (by rw [he, hi]; omega)

theorem newValNode_eq (p : Parser) :
    p.newValNode = (p.exp[p.index]?).map
      (fun s => (Node.ValNode (atoiValue s), { p with index := p.index + 1 })) := by
  unfold Parser.newValNode
  cases p.exp[p.index]? <;> rfl

theorem newAddNode_eq (p : Parser) :
    p.newAddNode = (p.exp[p.index + 1]?).map
      (fun s => (Node.AddNode p.prev (Node.ValNode (atoiValue s)),
        { p with index := p.index + 2 })) := by
  unfold Parser.newAddNode
  rw [newValNode_eq]
  dsimp only
  cases p.exp[p.index + 1]? <;> rfl

theorem newMinNode_eq (p : Parser) :
    p.newMinNode = (p.exp[p.index + 1]?).map
      (fun s => (Node.MinNode p.prev (Node.ValNode (atoiValue s)),
        { p with index := p.index + 2 })) := by
  unfold Parser.newMinNode
  rw [newValNode_eq]
  dsimp only
  cases p.exp[p.index + 1]? <;> rfl

/-- One loop iteration in the default (value) branch: the fresh
`ValNode` replaces whatever `prev` held. -/
theorem parseLoop_step_val (p : Parser) (t : String)
    (hg : p.exp[p.index]? = some t) (h1 : t ≠ "+") (h2 : t ≠ "-") :
    p.parseLoop =
      Parser.parseLoop { p with index := p.index + 1, prev := Node.ValNode (atoiValue t) } := by
  rw [Parser.parseLoop, hg]
  dsimp only
  rw [if_neg h1, if_neg h2, newValNode_eq, hg]
  rfl

/-- One loop iteration in the `"+"` branch when a next token exists. -/
theorem parseLoop_step_add (p : Parser) (v : String)
    (hg : p.exp[p.index]? = some "+") (hv : p.exp[p.index + 1]? = some v) :
    p.parseLoop =
      Parser.parseLoop
        { p with index := p.index + 2, prev := Node.AddNode p.prev (Node.ValNode (atoiValue v)) } := by
  rw [Parser.parseLoop, hg]
  dsimp only
  rw [if_pos rfl, newAddNode_eq, hv]
  rfl

/-- One loop iteration in the `"-"` branch when a next token exists. -/
theorem parseLoop_step_min (p : Parser) (v : String)
    (hg : p.exp[p.index]? = some "-") (hv : p.exp[p.index + 1]? = some v) :
    p.parseLoop =
      Parser.parseLoop
        { p with index := p.index + 2, prev := Node.MinNode p.prev (Node.ValNode (atoiValue v)) } := by
  rw [Parser.parseLoop, hg]
  dsimp only
  rw [if_neg (by decide), if_pos rfl, newMinNode_eq, hv]
  rfl

/-- An operator with no following token: `newValNode` indexes past the
end of the slice, a panic. -/
theorem parseLoop_step_panic (p : Parser) (t : String)
    (ht : t = "+" ∨ t = "-") (hg : p.exp[p.index]? = some t)
    (hv : p.exp[p.index + 1]? = none) :
    p.parseLoop = none := by
  rw [Parser.parseLoop, hg]
  dsimp only
  rcases ht with h | h
  · subst h
    rw [if_pos rfl, newAddNode_eq, hv]
    rfl
  · subst h
    rw [if_neg (by decide), if_pos rfl, newMinNode_eq, hv]
    rfl

/-- Cursor at or past the end of the slice: the loop exits, returning
the state unchanged. -/
theorem parseLoop_done (p : Parser) (hg : p.exp[p.index]? = none) :
    p.parseLoop = some p := by
  rw [Parser.parseLoop, hg]

/-- Concrete runs of `Parse` are read off the structurally recursive
fuel twin. -/
theorem Parse_eq_of_fuel {p : Parser} {s : String} {r : Option Parser}
    (h : Parser.parseLoopFuel (tokenize s).length { p with exp := tokenize s } = some r) :
    p.Parse s = r := by
  rw [parseLoopFuel_complete (tokenize s).length _ (by exact Nat.sub_le _ _)] at h
  exact Option.some.inj h

/-- Evaluating `interpretExpr` on concrete inputs goes through the
structurally recursive fuel twin. -/
theorem interpretExpr_eq_fuel (s : String) :
    interpretExpr s =
      (match Parser.parseLoopFuel (tokenize s).length
          { newParser with exp := tokenize s } with
        | some (some p) => p.prev.Interpret
        | _ => none) := by
  rw [parseLoopFuel_complete (tokenize s).length { newParser with exp := tokenize s }
    (by exact Nat.sub_le _ _)]
  unfold interpretExpr Parser.Parse
  cases Parser.parseLoop { newParser with exp := tokenize s } <;> rfl

example : interpretExpr "1 + 2" = some 3 := by rw [interpretExpr_eq_fuel]; decide
example : interpretExpr "1 + 2 - 3" = some 0 := by rw [interpretExpr_eq_fuel]; decide
example : interpretExpr "5" = some 5 := by rw [interpretExpr_eq_fuel]; decide

theorem parseLoop_chain (rest : List (Op × String)) :
    ∀ (pre : List String) (acc : Node),
      ∃ pf, Parser.parseLoop ⟨pre ++ flatRest rest, pre.length, acc⟩ = some pf ∧
        pf.prev = chainNode acc rest := by
  induction rest with
  | nil =>
    intro pre acc
    refine ⟨⟨pre ++ flatRest [], pre.length, acc⟩, ?_, rfl⟩
    apply parseLoop_done
    simp [flatRest]
  | cons p rest ih =>
    intro pre acc
    obtain ⟨o, v⟩ := p
    have hg : (pre ++ flatRest ((o, v) :: rest))[pre.length]? = some o.symbol := by
      rw [List.getElem?_append_right (le_refl _)]
      simp [flatRest]
    have hv : (pre ++ flatRest ((o, v) :: rest))[pre.length + 1]? = some v := by
      rw [List.getElem?_append_right (by omega)]
      simp [flatRest]
    have e1 : (pre ++ [o.symbol, v]) ++ flatRest rest = pre ++ flatRest ((o, v) :: rest) := by
      simp [flatRest]
    have e2 : (pre ++ [o.symbol, v]).length = pre.length + 2 := by
      simp
    cases o with
    | plus =>
      rw [parseLoop_step_add _ v hg hv]
      obtain ⟨pf, h1, h2⟩ := ih (pre ++ [Op.plus.symbol, v])
        (Node.AddNode acc (Node.ValNode (atoiValue v)))
      rw [e1, e2] at h1
      exact ⟨pf, h1, h2⟩
    | minus =>
      rw [parseLoop_step_min _ v hg hv]
      obtain ⟨pf, h1, h2⟩ := ih (pre ++ [Op.minus.symbol, v])
        (Node.MinNode acc (Node.ValNode (atoiValue v)))
      rw [e1, e2] at h1
      exact ⟨pf, h1, h2⟩

theorem parse_chain (t0 : String) (rest : List (Op × String))
    (h1 : t0 ≠ "+") (h2 : t0 ≠ "-") :
    ∃ pf, Parser.parseLoop ⟨chainTokens t0 rest, 0, Node.nilNode⟩ = some pf ∧
      pf.prev = chainNode (Node.ValNode (atoiValue t0)) rest := by
  have hg : (chainTokens t0 rest)[(0 : Nat)]? = some t0 := by
    simp [chainTokens]
  rw [parseLoop_step_val _ t0 hg h1 h2]
  have := parseLoop_chain rest [t0] (Node.ValNode (atoiValue t0))
  simpa [chainTokens] using this

theorem chainNode_interpret (rest : List (Op × String)) :
    ∀ (acc : Node) (a : Int), acc.Interpret = some a →
      (chainNode acc rest).Interpret =
        some (specLeftFoldWrap a (rest.map fun p => (p.1, atoiValue p.2))) := by
  induction rest with
  | nil =>
    intro acc a hacc
    simpa [chainNode, specLeftFoldWrap]
  | cons p rest ih =>
    intro acc a hacc
    obtain ⟨o, v⟩ := p
    cases o with
    | plus =>
      have := ih (Node.AddNode acc (Node.ValNode (atoiValue v))) (wrap64 (a + atoiValue v))
        (by simp [Node.Interpret, hacc])
      simpa [chainNode, specLeftFoldWrap, Op.applyWrap] using this
    | minus =>
      have := ih (Node.MinNode acc (Node.ValNode (atoiValue v))) (wrap64 (a - atoiValue v))
        (by simp [Node.Interpret, hacc])
      simpa [chainNode, specLeftFoldWrap, Op.applyWrap] using this

theorem atoi?_isSome_ne_op {s : String} (h : (atoi? s).isSome) :
    s ≠ "+" ∧ s ≠ "-" := by
  constructor <;> rintro rfl
  · rw [show atoi? "+" = none from by decide] at h
    exact absurd h (by simp)
  · rw [show atoi? "-" = none from by decide] at h
    exact absurd h (by simp)

theorem chainNode_stats (rest : List (Op × String)) :
    ∀ acc : Node,
      (chainNode acc rest).countBin = acc.countBin + rest.length ∧
      (chainNode acc rest).countVal = acc.countVal + rest.length ∧
      (acc.chainShaped = true → (chainNode acc rest).chainShaped = true) := by
  induction rest with
  | nil =>
    intro acc
    simp [chainNode]
  | cons p rest ih =>
    intro acc
    obtain ⟨o, v⟩ := p
    cases o with
    | plus =>
      obtain ⟨h1, h2, h3⟩ := ih (Node.AddNode acc (Node.ValNode (atoiValue v)))
      refine ⟨?_, ?_, ?_⟩
      · rw [show chainNode acc ((Op.plus, v) :: rest)
          = chainNode (Node.AddNode acc (Node.ValNode (atoiValue v))) rest from rfl, h1]
        simp [Node.countBin]
        omega
      · rw [show chainNode acc ((Op.plus, v) :: rest)
          = chainNode (Node.AddNode acc (Node.ValNode (atoiValue v))) rest from rfl, h2]
        simp [Node.countVal]
        omega
      · intro hs
        rw [show chainNode acc ((Op.plus, v) :: rest)
          = chainNode (Node.AddNode acc (Node.ValNode (atoiValue v))) rest from rfl]
        exact h3 (by simp [Node.chainShaped, Node.isVal, hs])
    | minus =>
      obtain ⟨h1, h2, h3⟩ := ih (Node.MinNode acc (Node.ValNode (atoiValue v)))
      refine ⟨?_, ?_, ?_⟩
      · rw [show chainNode acc ((Op.minus, v) :: rest)
          = chainNode (Node.MinNode acc (Node.ValNode (atoiValue v))) rest from rfl, h1]
        simp [Node.countBin]
        omega
      · rw [show chainNode acc ((Op.minus, v) :: rest)
          = chainNode (Node.MinNode acc (Node.ValNode (atoiValue v))) rest from rfl, h2]
        simp [Node.countVal]
        omega
      · intro hs
        rw [show chainNode acc ((Op.minus, v) :: rest)
          = chainNode (Node.MinNode acc (Node.ValNode (atoiValue v))) rest from rfl]
        exact h3 (by simp [Node.chainShaped, Node.isVal, hs])

theorem Interpret_isSome_of_noNil (n : Node) (h : n.noNil = true) :
    ∃ v, n.Interpret = some v := by
  induction n with
  | nilNode => exact absurd h (by simp [Node.noNil])
  | ValNode v => exact ⟨v, rfl⟩
  | AddNode l r ihl ihr =>
    rw [Node.noNil, Bool.and_eq_true] at h
    obtain ⟨a, ha⟩ := ihl h.1
    obtain ⟨b, hb⟩ := ihr h.2
    exact ⟨wrap64 (a + b), by simp [Node.Interpret, ha, hb]⟩
  | MinNode l r ihl ihr =>
    rw [Node.noNil, Bool.and_eq_true] at h
    obtain ⟨a, ha⟩ := ihl h.1
    obtain ⟨b, hb⟩ := ihr h.2
    exact ⟨wrap64 (a - b), by simp [Node.Interpret, ha, hb]⟩

theorem parseLoop_noNil (k : Nat) :
    ∀ p : Parser, p.exp.length - p.index ≤ k → p.prev.noNil = true →
      ∀ p', p.parseLoop = some p' → p'.prev.noNil = true := by
  induction k with
  | zero =>
    intro p hk hn p' hp'
    cases hg : p.exp[p.index]? with
    | none =>
      rw [parseLoop_done _ hg] at hp'
      cases hp'
      exact hn
    | some t =>
      exact absurd (index_lt_of_getElem?_some hg) (by omega)
  | succ k ih =>
    intro p hk hn p' hp'
    cases hg : p.exp[p.index]? with
    | none =>
      rw [parseLoop_done _ hg] at hp'
      cases hp'
      exact hn
    | some t =>
      have hlt := index_lt_of_getElem?_some hg
      by_cases h1 : t = "+"
      · subst h1
        cases hv : p.exp[p.index + 1]? with
        | none =>
          rw [parseLoop_step_panic _ _ (Or.inl rfl) hg hv] at hp'
          exact absurd hp' (by simp)
        | some v =>
          rw [parseLoop_step_add _ v hg hv] at hp'
          exact ih _ (by simp; omega) (by simp [Node.noNil, hn]) p' hp'
      · by_cases h2 : t = "-"
        · subst h2
          cases hv : p.exp[p.index + 1]? with
          | none =>
            rw [parseLoop_step_panic _ _ (Or.inr rfl) hg hv] at hp'
            exact absurd hp' (by simp)
          | some v =>
            rw [parseLoop_step_min _ v hg hv] at hp'
            exact ih _ (by simp; omega) (by simp [Node.noNil, hn]) p' hp'
        · rw [parseLoop_step_val _ t hg h1 h2] at hp'
          exact ih _ (by simp; omega) (by simp [Node.noNil]) p' hp'

/-- C1 is false on the code as stated: `Interpret` adds with Go `int`
arithmetic, which wraps at 64 bits, while the claimed fold is exact.
For `"9223372036854775807 + 1"` — both tokens valid base-10 literals,
single-space chain, so every hypothesis of the claim is met — the
program returns the wrapped value -9223372036854775808, not the exact
fold 9223372036854775808. -/
theorem c1_overflow_counterexample :
    interpretExpr "9223372036854775807 + 1"
      ≠ some (specLeftFold 9223372036854775807 [(Op.plus, 1)]) ∧
    interpretExpr "9223372036854775807 + 1" = some (-9223372036854775808) := by
  constructor
  · rw [interpretExpr_eq_fuel]
    decide
  · rw [interpretExpr_eq_fuel]
    decide

/-- C1 (amended): for every well-formed input of the form
`v1 op1 v2 op2 ... opN v(N+1)` — tokens alternating between base-10
integer literals (optionally signed, accepted by `Atoi`, i.e. in the
64-bit range) and the operator symbols `+`/`-`, separated by single
spaces, so that the token sequence is exactly a chain — parsing
followed by interpreting the root node returns the strict
left-to-right fold `(...((v1 op1 v2) op2 v3) ... opN v(N+1))` computed
in Go's wrapping 64-bit `int` arithmetic (each intermediate result
wraps; whenever no partial result overflows, this is the exact fold). -/
theorem c1_wrapped_left_fold_eval (s t0 : String) (v0 : Int)
    (rest : List (Op × String × Int))
    (hs : tokenize s = chainTokens t0 (rest.map fun r => (r.1, r.2.1)))
    (h0 : atoi? t0 = some v0)
    (hr : ∀ r ∈ rest, atoi? r.2.1 = some r.2.2) :
    interpretExpr s = some (specLeftFoldWrap v0 (rest.map fun r => (r.1, r.2.2))) := by
  obtain ⟨hne1, hne2⟩ := atoi?_isSome_ne_op (s := t0) (by rw [h0]; rfl)
  obtain ⟨pf, hpf, hprev⟩ := parse_chain t0 (rest.map fun r => (r.1, r.2.1)) hne1 hne2
  have hmap : ((rest.map fun r => (r.1, r.2.1)).map fun q => (q.1, atoiValue q.2))
      = rest.map fun r => (r.1, r.2.2) := by
    rw [List.map_map]
    apply List.map_congr_left
    intro r hrr
    dsimp only [Function.comp]
    rw [atoiValue_of_atoi? (hr r hrr)]
  unfold interpretExpr Parser.Parse newParser
  dsimp only
  rw [hs, hpf]
  dsimp only
  rw [hprev, chainNode_interpret _ (Node.ValNode (atoiValue t0)) (atoiValue t0) rfl,
    atoiValue_of_atoi? h0, hmap]

/-- Witness for the amended C1 at `"1 + 2 - 3"`. -/
theorem c1_wrapped_left_fold_eval_witness :
    interpretExpr "1 + 2 - 3" = some (specLeftFoldWrap 1 [(Op.plus, 2), (Op.minus, 3)]) :=
  c1_wrapped_left_fold_eval "1 + 2 - 3" "1" 1 [(Op.plus, "2", 2), (Op.minus, "3", 3)]
    (by decide) (by decide) (by decide)

/-- C2 is false on the code: the builder run on `"+ 1"` produces an
`AddNode` whose left child is the nil `prev`, and interpreting that tree
fails (nil-interface dereference, a panic) — and no error of the five
claimed kinds is ever detected during tokenize/build. -/
theorem c2_eval_fails_counterexample :
    Parser.Parse newParser "+ 1"
      = some ⟨["+", "1"], 2, Node.AddNode Node.nilNode (Node.ValNode 1)⟩ ∧
    Node.Interpret (Node.AddNode Node.nilNode (Node.ValNode 1)) = none :=
  ⟨Parse_eq_of_fuel (by decide), rfl⟩

/-- C2 (amended): evaluating the built tree cannot fail provided the
parse succeeded and the first token of the input is not an operator
symbol: then every node ever stored in `prev` is free of the nil
interface value, so `Interpret` returns a value. -/
theorem c2_interpret_total_after_parse (s : String) (t0 : String) (p : Parser)
    (h0 : (tokenize s).head? = some t0) (h1 : t0 ≠ "+") (h2 : t0 ≠ "-")
    (hp : newParser.Parse s = some p) :
    ∃ v, p.prev.Interpret = some v := by
  obtain ⟨tl, htl⟩ : ∃ tl, tokenize s = t0 :: tl := by
    cases hc : tokenize s with
    | nil => rw [hc] at h0; exact absurd h0 (by simp)
    | cons a tl =>
      rw [hc] at h0
      simp only [List.head?_cons, Option.some_inj] at h0
      exact ⟨tl, by rw [h0]⟩
  unfold Parser.Parse newParser at hp
  dsimp only at hp
  rw [htl] at hp
  rw [parseLoop_step_val ⟨t0 :: tl, 0, Node.nilNode⟩ t0 (by simp) h1 h2] at hp
  have hn := parseLoop_noNil (t0 :: tl).length
    ⟨t0 :: tl, 0 + 1, Node.ValNode (atoiValue t0)⟩ (by exact Nat.sub_le _ _) rfl p hp
  exact Interpret_isSome_of_noNil _ hn

/-- Witness for the amended C2 at `"1 + 2"`. -/
theorem c2_interpret_total_after_parse_witness :
    ∃ v, Node.Interpret (Node.AddNode (Node.ValNode 1) (Node.ValNode 2)) = some v :=
  c2_interpret_total_after_parse "1 + 2" "1"
    ⟨["1", "+", "2"], 3, Node.AddNode (Node.ValNode 1) (Node.ValNode 2)⟩
    (by decide) (by decide) (by decide) (Parse_eq_of_fuel (by decide))

/-- C3: for every well-formed chain input with N operators, the
constructed AST has exactly N binary-operator nodes and N + 1 value
nodes, every binary node's right child is a `ValNode`, and every binary
node's left child is a `ValNode` or a previously built binary node
(the `chainShaped` predicate). -/
theorem c3_tree_shape (s t0 : String) (rest : List (Op × String))
    (hs : tokenize s = chainTokens t0 rest)
    (h0 : (atoi? t0).isSome) :
    ∃ p, Parser.Parse newParser s = some p ∧
      p.prev.countBin = rest.length ∧
      p.prev.countVal = rest.length + 1 ∧
      p.prev.chainShaped = true := by
  obtain ⟨hne1, hne2⟩ := atoi?_isSome_ne_op h0
  obtain ⟨pf, hpf, hprev⟩ := parse_chain t0 rest hne1 hne2
  obtain ⟨hb, hcv, hshape⟩ := chainNode_stats rest (Node.ValNode (atoiValue t0))
  refine ⟨pf, ?_, ?_, ?_, ?_⟩
  · unfold Parser.Parse newParser
    dsimp only
    rw [hs]
    exact hpf
  · rw [hprev, hb]
    show 0 + rest.length = rest.length
    omega
  · rw [hprev, hcv]
    show 1 + rest.length = rest.length + 1
    omega
  · rw [hprev]
    exact hshape rfl

/-- Witness for C3 at `"1 + 2 - 3"` (two operators). -/
theorem c3_tree_shape_witness :
    ∃ p, Parser.Parse newParser "1 + 2 - 3" = some p ∧
      p.prev.countBin = 2 ∧ p.prev.countVal = 3 ∧ p.prev.chainShaped = true :=
  c3_tree_shape "1 + 2 - 3" "1" [(Op.plus, "2"), (Op.minus, "3")] (by decide) (by decide)

/-- C4 is false on the code: `"1 + x"` contains the segment `"x"`,
neither an integer literal nor an operator, yet the pipeline succeeds
(no `MalformedTokenError` exists) and returns 1. -/
theorem c4_malformed_counterexample : interpretExpr "1 + x" = some 1 := by
  rw [interpretExpr_eq_fuel]
  decide

/-- C4 (amended): a segment that is not a syntactically valid integer
does not make the pipeline fail; consumed in value position it becomes
a `ValNode` holding 0 (`Atoi`'s error is discarded by `newValNode`). -/
theorem c4_malformed_token_as_zero (p : Parser) (t : String)
    (hg : p.exp[p.index]? = some t) (hbad : parseSigned t.data = none) :
    p.newValNode = some (Node.ValNode 0, { p with index := p.index + 1 }) := by
  have h0 : atoiValue t = 0 := by
    unfold atoiValue
    rw [hbad]
  rw [newValNode_eq, hg]
  simp [h0]

/-- Witness for the amended C4 at segment `"x"`. -/
theorem c4_malformed_token_as_zero_witness :
    Parser.newValNode ⟨["x"], 0, Node.nilNode⟩
      = some (Node.ValNode 0, ⟨["x"], 1, Node.nilNode⟩) :=
  c4_malformed_token_as_zero ⟨["x"], 0, Node.nilNode⟩ "x" rfl (by decide)

/-- C5 is false on the code: parsing the empty string does not fail —
it produces the result 0 (no `EmptyExpressionError` exists). -/
theorem c5_empty_counterexample : interpretExpr "" = some 0 := by
  rw [interpretExpr_eq_fuel]
  decide

/-- C5 (amended): `strings.Split` turns the empty string into one empty
segment, which parses as a single `ValNode 0`; the pipeline succeeds
with result 0 instead of reporting `EmptyExpressionError`. -/
theorem c5_empty_input_value_zero :
    Parser.Parse newParser "" = some ⟨[""], 1, Node.ValNode 0⟩ ∧
    interpretExpr "" = some 0 :=
  ⟨Parse_eq_of_fuel (by decide), by rw [interpretExpr_eq_fuel]; decide⟩

/-- C6 is false on the code: `"+ 1 2"` parses without error and
evaluates to 2 (no `UnexpectedOperatorError` exists). -/
theorem c6_leading_op_counterexample : interpretExpr "+ 1 2" = some 2 := by
  rw [interpretExpr_eq_fuel]
  decide

/-- C6 (amended): an expression beginning with an operator raises no
error: the operator node built with the nil `prev` as left child is
later discarded when the following value token overwrites `prev`; for
`"+ 1 2"` the final tree is `ValNode 2` and the result is 2. -/
theorem c6_leading_op_no_error :
    Parser.Parse newParser "+ 1 2" = some ⟨["+", "1", "2"], 3, Node.ValNode 2⟩ ∧
    interpretExpr "+ 1 2" = some 2 :=
  ⟨Parse_eq_of_fuel (by decide), by rw [interpretExpr_eq_fuel]; decide⟩

/-- C7 is false on the code: `"1 2"` parses without error and evaluates
to 2 (no `ExpectedOperatorError` exists). -/
theorem c7_consecutive_values_counterexample : interpretExpr "1 2" = some 2 := by
  rw [interpretExpr_eq_fuel]
  decide

/-- C7 (amended): two consecutive value tokens raise no error — on a
value token the loop simply stores a fresh `ValNode` in `prev`,
discarding the previously built subtree. -/
theorem c7_second_value_replaces_prev (p : Parser) (t : String)
    (hg : p.exp[p.index]? = some t) (h1 : t ≠ "+") (h2 : t ≠ "-") :
    p.parseLoop =
      Parser.parseLoop { p with index := p.index + 1, prev := Node.ValNode (atoiValue t) } :=
  parseLoop_step_val p t hg h1 h2

/-- Witness for the amended C7: in `"1 2"`, the second token overwrites
the `ValNode 1` already in `prev`. -/
theorem c7_second_value_replaces_prev_witness :
    Parser.parseLoop ⟨["1", "2"], 1, Node.ValNode 1⟩
      = Parser.parseLoop ⟨["1", "2"], 2, Node.ValNode 2⟩ :=
  c7_second_value_replaces_prev ⟨["1", "2"], 1, Node.ValNode 1⟩ "2" (by decide)
    (by decide) (by decide)

/-- C8 is false on the code: `"1 +"` does not fail with
`ExpectedValueError` — `newValNode` indexes past the end of the token
slice and the parse crashes (index-out-of-range panic, modelled as
`none`). -/
theorem c8_trailing_op_counterexample : Parser.Parse newParser "1 +" = none :=
  Parse_eq_of_fuel (by decide)

/-- C8 (amended): an expression ending on an operator makes the parse
panic with an out-of-range index instead of reporting
`ExpectedValueError`; two consecutive operators are not detected either
— the second operator is consumed as a value and parsed to 0, so
`"1 + + 2"` evaluates to 2. -/
theorem c8_trailing_or_double_op_behavior :
    (∀ (p : Parser) (t : String), (t = "+" ∨ t = "-") →
      p.exp[p.index]? = some t → p.exp[p.index + 1]? = none →
      p.parseLoop = none) ∧
    interpretExpr "1 + + 2" = some 2 :=
  ⟨parseLoop_step_panic, by rw [interpretExpr_eq_fuel]; decide⟩

/-- Witness for the amended C8: the state of `"1 +"` after its first
token, where the trailing `"+"` is about to be processed. -/
theorem c8_trailing_or_double_op_behavior_witness :
    Parser.parseLoop ⟨["1", "+"], 1, Node.ValNode 1⟩ = none :=
  c8_trailing_or_double_op_behavior.1 ⟨["1", "+"], 1, Node.ValNode 1⟩ "+"
    (Or.inl rfl) (by decide) (by decide)

/-- C9 is false on the code: `"1 + 2"` and `"1  +  2"` carry the same
tokens separated by different amounts of whitespace, yet they parse to
different ASTs and evaluate to 3 and 2 respectively. -/
theorem c9_whitespace_counterexample :
    interpretExpr "1 + 2" = some 3 ∧ interpretExpr "1  +  2" = some 2 :=
  ⟨by rw [interpretExpr_eq_fuel]; decide, by rw [interpretExpr_eq_fuel]; decide⟩

/-- C9 (amended): tokens must be separated by exactly one space — the
tokenizer splits around every single space character, so extra spaces
yield empty segments (as in `"1  +  2"`), and an empty segment consumed
in value position becomes a `ValNode 0`, changing the AST and the
result. -/
theorem c9_single_space_only :
    tokenize "1  +  2" = ["1", "", "+", "", "2"] ∧
    (∀ p : Parser, p.exp[p.index]? = some "" →
      p.newValNode = some (Node.ValNode 0, { p with index := p.index + 1 })) :=
  ⟨by decide, fun p hg => by rw [newValNode_eq, hg]; rfl⟩

/-- Witness for the amended C9: an empty segment in value position. -/
theorem c9_single_space_only_witness :
    Parser.newValNode ⟨[""], 0, Node.nilNode⟩
      = some (Node.ValNode 0, ⟨[""], 1, Node.nilNode⟩) :=
  c9_single_space_only.2 ⟨[""], 0, Node.nilNode⟩ (by decide)

/-- C10: `Parse` terminates on every input — each loop iteration
strictly advances the cursor (by one in the value branch, by two in an
operator branch), so with the total (`Option`-valued) embedding of
token indexing, one unit of fuel per remaining token always suffices:
the fuel-indexed loop never exhausts its fuel and agrees with the
loop's result. -/
theorem c10_parse_terminates (p : Parser) :
    Parser.parseLoopFuel (p.exp.length - p.index) p = some p.parseLoop :=
  parseLoopFuel_complete (p.exp.length - p.index) p (le_refl _)
